import Mathlib

/-!
Verification of the resol-vbus core data model: the `Data` sum type with its
logical equality and ordering, the `DataSet` collection, and the
specification-driven field decoding layer.

Machine integers (u8/u16/i16/i32/i64) are embedded as `Nat`/`Int`; none of the
verified operations perform wrapping arithmetic on them, only comparisons and
(for field decoding) sums whose overflow the source leaves to the caller's
contract.  `chrono::DateTime<UTC>` values are embedded as abstract instants
`Int`; the code only ever compares them.  Bytes (`u8` buffer contents) are
embedded as `Fin 256`.
-/

set_option maxHeartbeats 1000000

/-- Modelled from the spec: the `Header` struct of the missing `header.rs`
(section 3 of the spec): timestamp plus the addressing tuple shared by all
variants. -/
structure Header where
  timestamp : Int
  channel : Nat
  destination_address : Nat
  source_address : Nat
  protocol_version : Nat
deriving DecidableEq, Repr

/-- Modelled from the spec: the `Packet` struct of the missing `packet.rs`
(protocol version 1.x): header, u16 command, u8 frame count and frame payload
bytes. -/
structure Packet where
  header : Header
  command : Nat
  frame_count : Nat
  frame_data : List (Fin 256)
deriving DecidableEq, Repr

/-- Modelled from the spec: the `Datagram` struct of the missing `datagram.rs`
(protocol version 2.x): header, u16 command, i16 param16 and i32 param32. -/
structure Datagram where
  header : Header
  command : Nat
  param16 : Int
  param32 : Int
deriving DecidableEq, Repr

/-- The `Telegram` struct of `telegram.rs` (protocol version 3.x): header,
u8 command and 21 frame-data bytes (the length is not enforced here; none of
the verified operations depends on it). -/
structure Telegram where
  header : Header
  command : Nat
  frame_data : List (Fin 256)
deriving DecidableEq, Repr

/-- The `Data` sum type of `data.rs`: one of the three protocol variants. -/
inductive Data where
  | Packet : Packet → Data
  | Datagram : Datagram → Data
  | Telegram : Telegram → Data
deriving DecidableEq, Repr

/-- `Data::as_header` of `data.rs`: the `Header` part of the variant. -/
def Data.as_header : Data → Header
  | Data.Packet packet => packet.header
  | Data.Datagram dgram => dgram.header
  | Data.Telegram tgram => tgram.header

/-- `Data::eq` of `data.rs` (the `PartialEq` impl): logical equality in the
context of a `DataSet`. -/
def Data.eq (left right : Data) : Bool :=
  let left_header := left.as_header
  let right_header := right.as_header
  if left_header.channel ≠ right_header.channel then false
  else if left_header.destination_address ≠ right_header.destination_address then false
  else if left_header.source_address ≠ right_header.source_address then false
  else if left_header.protocol_version ≠ right_header.protocol_version then false
  else
    match left, right with
    | Data.Packet left_packet, Data.Packet right_packet =>
      if left_packet.command ≠ right_packet.command then false else true
    | Data.Packet _, _ => false
    | Data.Datagram left_dgram, Data.Datagram right_dgram =>
      if left_dgram.command ≠ right_dgram.command then false
      else if left_dgram.command ≠ 0x0900 then true
      else if left_dgram.param16 ≠ right_dgram.param16 then false
      else true
    | Data.Datagram _, _ => false
    | Data.Telegram left_tgram, Data.Telegram right_tgram =>
      if left_tgram.command ≠ right_tgram.command then false else true
    | Data.Telegram _, _ => false

/-- `Data::partial_cmp` of `data.rs` (the `PartialOrd` impl).  The Lean name
avoids the word used by Rust for lexical reasons only; the body is a direct
translation of the source. -/
def Data.partCmp (left right : Data) : Option Ordering :=
  let left_header := left.as_header
  let right_header := right.as_header
  if left_header.channel < right_header.channel then some Ordering.lt
  else if left_header.channel > right_header.channel then some Ordering.gt
  else if left_header.destination_address < right_header.destination_address then some Ordering.lt
  else if left_header.destination_address > right_header.destination_address then some Ordering.gt
  else if left_header.source_address < right_header.source_address then some Ordering.lt
  else if left_header.source_address > right_header.source_address then some Ordering.gt
  else if left_header.protocol_version < right_header.protocol_version then some Ordering.lt
  else if left_header.protocol_version > right_header.protocol_version then some Ordering.gt
  else
    match left, right with
    | Data.Packet left_packet, Data.Packet right_packet =>
      if left_packet.command < right_packet.command then some Ordering.lt
      else if left_packet.command > right_packet.command then some Ordering.gt
      else some Ordering.eq
    | Data.Packet _, _ => none
    | Data.Datagram left_dgram, Data.Datagram right_dgram =>
      if left_dgram.command < right_dgram.command then some Ordering.lt
      else if left_dgram.command > right_dgram.command then some Ordering.gt
      else if left_dgram.command ≠ 0x0900 then some Ordering.eq
      else if left_dgram.param16 < right_dgram.param16 then some Ordering.lt
      else if left_dgram.param16 > right_dgram.param16 then some Ordering.gt
      else some Ordering.eq
    | Data.Datagram _, _ => none
    | Data.Telegram left_tgram, Data.Telegram right_tgram =>
      if left_tgram.command < right_tgram.command then some Ordering.lt
      else if left_tgram.command > right_tgram.command then some Ordering.gt
      else some Ordering.eq
    | Data.Telegram _, _ => none

/-- Variant tag of a `Data` value, as a number (analysis helper). -/
def Data.tag : Data → Nat
  | Data.Packet _ => 0
  | Data.Datagram _ => 1
  | Data.Telegram _ => 2

/-- The command selector of a `Data` value, as a number (analysis helper). -/
def Data.cmdNat : Data → Nat
  | Data.Packet packet => packet.command
  | Data.Datagram dgram => dgram.command
  | Data.Telegram tgram => tgram.command

/-- The identity-relevant part of `param16` (analysis helper): `param16`
for a Datagram whose command is 0x0900, a constant otherwise. -/
def Data.paramKey : Data → Int
  | Data.Datagram dgram => if dgram.command = 0x0900 then dgram.param16 else 0
  | _ => 0

/-- The full logical-identity key of a `Data` value: header tuple, variant
tag, command selector and the 0x0900 `param16` tie-breaker.  It reads none of
timestamp, frame counts, frame payloads, `param32`, nor `param16` outside
command 0x0900. -/
def Data.identityKey (d : Data) : Nat × Nat × Nat × Nat × Nat × Nat × Int :=
  (d.as_header.channel, d.as_header.destination_address, d.as_header.source_address,
    d.as_header.protocol_version, d.tag, d.cmdNat, d.paramKey)

/-- Equality of the four header fields that take part in identity. -/
def Header.keyEq (x y : Header) : Prop :=
  x.channel = y.channel ∧ x.destination_address = y.destination_address ∧
    x.source_address = y.source_address ∧ x.protocol_version = y.protocol_version

/-- Strict lexicographic order on the four identity header fields. -/
def Header.keyLt (x y : Header) : Prop :=
  x.channel < y.channel ∨ (x.channel = y.channel ∧
    (x.destination_address < y.destination_address ∨ (x.destination_address = y.destination_address ∧
      (x.source_address < y.source_address ∨ (x.source_address = y.source_address ∧
        x.protocol_version < y.protocol_version)))))

/-- Strict lexicographic order on the full identity key, requiring equal
variant tags at the tie-break step. -/
def Data.keyLt (a b : Data) : Prop :=
  Header.keyLt a.as_header b.as_header ∨
    (Header.keyEq a.as_header b.as_header ∧ a.tag = b.tag ∧
      (a.cmdNat < b.cmdNat ∨ (a.cmdNat = b.cmdNat ∧ a.paramKey < b.paramKey)))

lemma Data.eq_iff_key (l r : Data) :
    l.eq r = true ↔ (Header.keyEq l.as_header r.as_header ∧ l.tag = r.tag ∧
      l.cmdNat = r.cmdNat ∧ l.paramKey = r.paramKey) := by
  cases l <;> cases r <;>
    simp only [Data.eq, Data.as_header, Data.tag, Data.cmdNat, Data.paramKey,
      Header.keyEq] <;>
    split_ifs <;> simp_all <;> omega

/-- One short-circuiting lexicographic comparison step on `Nat` (analysis
helper; `Data.partCmp` is definitionally a nest of these). -/
def natStep (x y : Nat) (rest : Option Ordering) : Option Ordering :=
  if x < y then some Ordering.lt
  else if x > y then some Ordering.gt
  else rest

/-- One short-circuiting lexicographic comparison step on `Int`. -/
def intStep (x y : Int) (rest : Option Ordering) : Option Ordering :=
  if x < y then some Ordering.lt
  else if x > y then some Ordering.gt
  else rest

/-- The variant-specific tail of `Data::partial_cmp`, reached once the four
header fields compare equal. -/
def Data.variantCmp : Data → Data → Option Ordering
  | Data.Packet left_packet, Data.Packet right_packet =>
    natStep left_packet.command right_packet.command (some Ordering.eq)
  | Data.Packet _, _ => none
  | Data.Datagram left_dgram, Data.Datagram right_dgram =>
    natStep left_dgram.command right_dgram.command
      (if left_dgram.command ≠ 0x0900 then some Ordering.eq
       else intStep left_dgram.param16 right_dgram.param16 (some Ordering.eq))
  | Data.Datagram _, _ => none
  | Data.Telegram left_tgram, Data.Telegram right_tgram =>
    natStep left_tgram.command right_tgram.command (some Ordering.eq)
  | Data.Telegram _, _ => none

lemma Data.partCmp_decompose (a b : Data) :
    a.partCmp b =
      natStep a.as_header.channel b.as_header.channel
        (natStep a.as_header.destination_address b.as_header.destination_address
          (natStep a.as_header.source_address b.as_header.source_address
            (natStep a.as_header.protocol_version b.as_header.protocol_version
              (a.variantCmp b)))) := by
  cases a <;> cases b <;> rfl

lemma natStep_lt_iff (x y : Nat) (rest : Option Ordering) :
    natStep x y rest = some Ordering.lt ↔ x < y ∨ (x = y ∧ rest = some Ordering.lt) := by
  unfold natStep
  rcases lt_trichotomy x y with h | h | h
  · simp [h, show x ≠ y by omega] <;> omega
  · subst h
    simp [lt_irrefl]
  · simp [gt_iff_lt, h, show ¬ x < y by omega, show x ≠ y by omega] <;> omega

lemma natStep_gt_iff (x y : Nat) (rest : Option Ordering) :
    natStep x y rest = some Ordering.gt ↔ y < x ∨ (x = y ∧ rest = some Ordering.gt) := by
  unfold natStep
  rcases lt_trichotomy x y with h | h | h
  · simp [h, show x ≠ y by omega] <;> omega
  · subst h
    simp [lt_irrefl]
  · simp [gt_iff_lt, h, show ¬ x < y by omega, show x ≠ y by omega] <;> omega

lemma natStep_eq_iff (x y : Nat) (rest : Option Ordering) :
    natStep x y rest = some Ordering.eq ↔ x = y ∧ rest = some Ordering.eq := by
  unfold natStep
  rcases lt_trichotomy x y with h | h | h
  · simp [h, show x ≠ y by omega] <;> omega
  · subst h
    simp [lt_irrefl]
  · simp [gt_iff_lt, h, show ¬ x < y by omega, show x ≠ y by omega] <;> omega

lemma natStep_none_iff (x y : Nat) (rest : Option Ordering) :
    natStep x y rest = none ↔ x = y ∧ rest = none := by
  unfold natStep
  rcases lt_trichotomy x y with h | h | h
  · simp [h, show x ≠ y by omega] <;> omega
  · subst h
    simp [lt_irrefl]
  · simp [gt_iff_lt, h, show ¬ x < y by omega, show x ≠ y by omega] <;> omega

lemma intStep_lt_iff (x y : Int) (rest : Option Ordering) :
    intStep x y rest = some Ordering.lt ↔ x < y ∨ (x = y ∧ rest = some Ordering.lt) := by
  unfold intStep
  rcases lt_trichotomy x y with h | h | h
  · simp [h, show x ≠ y by omega] <;> omega
  · subst h
    simp [lt_irrefl]
  · simp [gt_iff_lt, h, show ¬ x < y by omega, show x ≠ y by omega] <;> omega

lemma intStep_gt_iff (x y : Int) (rest : Option Ordering) :
    intStep x y rest = some Ordering.gt ↔ y < x ∨ (x = y ∧ rest = some Ordering.gt) := by
  unfold intStep
  rcases lt_trichotomy x y with h | h | h
  · simp [h, show x ≠ y by omega] <;> omega
  · subst h
    simp [lt_irrefl]
  · simp [gt_iff_lt, h, show ¬ x < y by omega, show x ≠ y by omega] <;> omega

lemma intStep_eq_iff (x y : Int) (rest : Option Ordering) :
    intStep x y rest = some Ordering.eq ↔ x = y ∧ rest = some Ordering.eq := by
  unfold intStep
  rcases lt_trichotomy x y with h | h | h
  · simp [h, show x ≠ y by omega] <;> omega
  · subst h
    simp [lt_irrefl]
  · simp [gt_iff_lt, h, show ¬ x < y by omega, show x ≠ y by omega] <;> omega

lemma intStep_none_iff (x y : Int) (rest : Option Ordering) :
    intStep x y rest = none ↔ x = y ∧ rest = none := by
  unfold intStep
  rcases lt_trichotomy x y with h | h | h
  · simp [h, show x ≠ y by omega] <;> omega
  · subst h
    simp [lt_irrefl]
  · simp [gt_iff_lt, h, show ¬ x < y by omega, show x ≠ y by omega] <;> omega

lemma Data.variantCmp_lt_iff (a b : Data) :
    a.variantCmp b = some Ordering.lt ↔
      (a.tag = b.tag ∧ (a.cmdNat < b.cmdNat ∨ (a.cmdNat = b.cmdNat ∧ a.paramKey < b.paramKey))) := by
  cases a <;> cases b <;>
    simp only [Data.variantCmp, Data.tag, Data.cmdNat, Data.paramKey,
      natStep_lt_iff] <;>
    (try split_ifs) <;> simp_all [intStep_lt_iff] <;> omega

lemma Data.variantCmp_gt_iff (a b : Data) :
    a.variantCmp b = some Ordering.gt ↔
      (a.tag = b.tag ∧ (b.cmdNat < a.cmdNat ∨ (a.cmdNat = b.cmdNat ∧ b.paramKey < a.paramKey))) := by
  cases a <;> cases b <;>
    simp only [Data.variantCmp, Data.tag, Data.cmdNat, Data.paramKey,
      natStep_gt_iff] <;>
    (try split_ifs) <;> simp_all [intStep_gt_iff] <;> omega

lemma Data.variantCmp_eq_iff (a b : Data) :
    a.variantCmp b = some Ordering.eq ↔
      (a.tag = b.tag ∧ a.cmdNat = b.cmdNat ∧ a.paramKey = b.paramKey) := by
  cases a <;> cases b <;>
    simp only [Data.variantCmp, Data.tag, Data.cmdNat, Data.paramKey,
      natStep_eq_iff] <;>
    (try split_ifs) <;> simp_all [intStep_eq_iff] <;> omega

lemma Data.variantCmp_none_iff (a b : Data) :
    a.variantCmp b = none ↔ a.tag ≠ b.tag := by
  cases a <;> cases b <;>
    simp only [Data.variantCmp, Data.tag, natStep_none_iff] <;>
    (try split_ifs) <;> simp_all [intStep_none_iff] <;> omega

lemma Data.partCmp_lt_iff (a b : Data) :
    a.partCmp b = some Ordering.lt ↔ a.keyLt b := by
  rw [Data.partCmp_decompose]
  simp only [natStep_lt_iff, Data.variantCmp_lt_iff, Data.keyLt, Header.keyLt, Header.keyEq]
  tauto

lemma Data.partCmp_gt_iff (a b : Data) :
    a.partCmp b = some Ordering.gt ↔ b.keyLt a := by
  rw [Data.partCmp_decompose]
  simp only [natStep_gt_iff, Data.variantCmp_gt_iff, Data.keyLt, Header.keyLt, Header.keyEq]
  constructor
  · intro h
    rcases h with h | ⟨e1, h⟩
    · exact Or.inl (Or.inl h)
    rcases h with h | ⟨e2, h⟩
    · exact Or.inl (Or.inr ⟨e1.symm, Or.inl h⟩)
    rcases h with h | ⟨e3, h⟩
    · exact Or.inl (Or.inr ⟨e1.symm, Or.inr ⟨e2.symm, Or.inl h⟩⟩)
    rcases h with h | ⟨e4, htag, h⟩
    · exact Or.inl (Or.inr ⟨e1.symm, Or.inr ⟨e2.symm, Or.inr ⟨e3.symm, h⟩⟩⟩)
    · exact Or.inr ⟨⟨e1.symm, e2.symm, e3.symm, e4.symm⟩, htag.symm, by tauto⟩
  · intro h
    rcases h with (h | ⟨e1, (h | ⟨e2, (h | ⟨e3, h⟩)⟩)⟩) | ⟨⟨e1, e2, e3, e4⟩, htag, h⟩
    · exact Or.inl h
    · exact Or.inr ⟨e1.symm, Or.inl h⟩
    · exact Or.inr ⟨e1.symm, Or.inr ⟨e2.symm, Or.inl h⟩⟩
    · exact Or.inr ⟨e1.symm, Or.inr ⟨e2.symm, Or.inr ⟨e3.symm, Or.inl h⟩⟩⟩
    · exact Or.inr ⟨e1.symm, Or.inr ⟨e2.symm, Or.inr ⟨e3.symm, Or.inr ⟨e4.symm, htag.symm, by tauto⟩⟩⟩⟩

lemma Data.partCmp_eq_iff (a b : Data) :
    a.partCmp b = some Ordering.eq ↔ (Header.keyEq a.as_header b.as_header ∧
      a.tag = b.tag ∧ a.cmdNat = b.cmdNat ∧ a.paramKey = b.paramKey) := by
  rw [Data.partCmp_decompose]
  simp only [natStep_eq_iff, Data.variantCmp_eq_iff, Header.keyEq]
  tauto

lemma Data.partCmp_none_iff (a b : Data) :
    a.partCmp b = none ↔ (Header.keyEq a.as_header b.as_header ∧ a.tag ≠ b.tag) := by
  rw [Data.partCmp_decompose]
  simp only [natStep_none_iff, Data.variantCmp_none_iff, Header.keyEq]
  tauto

lemma Data.eq_iff_identityKey (l r : Data) :
    l.eq r = true ↔ l.identityKey = r.identityKey := by
  rw [Data.eq_iff_key]
  simp only [Data.identityKey, Prod.mk.injEq, Header.keyEq]
  tauto

/-- C1: `Data::eq` is true exactly when the two values have the same logical
identity key: equal header tuples (channel, destination_address,
source_address, protocol_version), equal variant tags, equal command
selectors, and — for Datagrams — equal `param16` exactly when the command is
0x0900.  Since `Data.identityKey` reads none of timestamp, frame_count,
frame_data, `param32`, nor `param16` for other Datagram commands, the result
never depends on them: values with the same key are interchangeable on either
side of `Data.eq`. -/
theorem data_eq_characterization :
    (∀ l r : Data, l.eq r = true ↔ l.identityKey = r.identityKey) ∧
    (∀ l l' r : Data, l.identityKey = l'.identityKey → l.eq r = l'.eq r) ∧
    (∀ l r r' : Data, r.identityKey = r'.identityKey → l.eq r = l.eq r') := by
  refine ⟨Data.eq_iff_identityKey, ?_, ?_⟩
  · intro l l' r h
    have hiff : l.eq r = true ↔ l'.eq r = true := by
      rw [Data.eq_iff_identityKey, Data.eq_iff_identityKey, h]
    cases hl : l.eq r <;> cases hl' : l'.eq r <;> simp_all
  · intro l r r' h
    have hiff : l.eq r = true ↔ l.eq r' = true := by
      rw [Data.eq_iff_identityKey, Data.eq_iff_identityKey, h]
    cases hl : l.eq r <;> cases hl' : l.eq r' <;> simp_all

/-- Concrete instantiation of `data_eq_characterization`: two Packets that
differ only in timestamp, frame count and frame data are logically equal. -/
theorem data_eq_characterization_witness :
    Data.eq
      (Data.Packet ⟨⟨10, 0x11, 0x10, 0x7E11, 0x10⟩, 0x0100, 2, [1, 2]⟩)
      (Data.Packet ⟨⟨99, 0x11, 0x10, 0x7E11, 0x10⟩, 0x0100, 7, [3]⟩) =
    Data.eq
      (Data.Packet ⟨⟨10, 0x11, 0x10, 0x7E11, 0x10⟩, 0x0100, 2, [1, 2]⟩)
      (Data.Packet ⟨⟨10, 0x11, 0x10, 0x7E11, 0x10⟩, 0x0100, 2, [1, 2]⟩) :=
  data_eq_characterization.2.2
    (Data.Packet ⟨⟨10, 0x11, 0x10, 0x7E11, 0x10⟩, 0x0100, 2, [1, 2]⟩)
    (Data.Packet ⟨⟨99, 0x11, 0x10, 0x7E11, 0x10⟩, 0x0100, 7, [3]⟩)
    (Data.Packet ⟨⟨10, 0x11, 0x10, 0x7E11, 0x10⟩, 0x0100, 2, [1, 2]⟩)
    (by decide)

/-- Well-formedness of a `Data` value (spec section 4.3): the variant tag
agrees with the protocol-version family (0x1x Packet, 0x2x Datagram,
0x3x Telegram). -/
def Data.wf : Data → Prop
  | Data.Packet packet => packet.header.protocol_version / 16 = 1
  | Data.Datagram dgram => dgram.header.protocol_version / 16 = 2
  | Data.Telegram tgram => tgram.header.protocol_version / 16 = 3

instance : DecidablePred Data.wf := fun d =>
  match d with
  | Data.Packet _ => inferInstanceAs (Decidable (_ = _))
  | Data.Datagram _ => inferInstanceAs (Decidable (_ = _))
  | Data.Telegram _ => inferInstanceAs (Decidable (_ = _))

lemma Data.wf_tag_eq {a b : Data} (ha : a.wf) (hb : b.wf)
    (h : a.as_header.protocol_version = b.as_header.protocol_version) : a.tag = b.tag := by
  cases a <;> cases b <;>
    simp only [Data.wf, Data.tag, Data.as_header] at * <;> omega

/-- Three-way comparison on `Nat`, ascending. -/
def cmpNat (x y : Nat) : Ordering :=
  if x < y then Ordering.lt else if y < x then Ordering.gt else Ordering.eq

/-- Three-way comparison on `Int`, ascending. -/
def cmpInt (x y : Int) : Ordering :=
  if x < y then Ordering.lt else if y < x then Ordering.gt else Ordering.eq

/-- Modelled from the spec: the total lexicographic ordering of spec section
4.3 — channel, then destination_address, then source_address, then
protocol_version, each short-circuiting on inequality, then the command
selector within the shared variant, with `param16` as the final tie-break
exactly for Datagrams whose command is 0x0900 (`Data.cmdNat` and
`Data.paramKey` encode step 6 for values whose variant agrees with the
protocol version; between differing well-formed variants the comparison
resolves at the protocol_version step). -/
def specLexCmp (a b : Data) : Ordering :=
  (cmpNat a.as_header.channel b.as_header.channel).then
    ((cmpNat a.as_header.destination_address b.as_header.destination_address).then
      ((cmpNat a.as_header.source_address b.as_header.source_address).then
        ((cmpNat a.as_header.protocol_version b.as_header.protocol_version).then
          ((cmpNat a.cmdNat b.cmdNat).then (cmpInt a.paramKey b.paramKey)))))

lemma ordThen_lt_iff (o p : Ordering) :
    o.then p = Ordering.lt ↔ (o = Ordering.lt ∨ (o = Ordering.eq ∧ p = Ordering.lt)) := by
  cases o <;> simp [Ordering.then]

lemma ordThen_gt_iff (o p : Ordering) :
    o.then p = Ordering.gt ↔ (o = Ordering.gt ∨ (o = Ordering.eq ∧ p = Ordering.gt)) := by
  cases o <;> simp [Ordering.then]

lemma ordThen_eq_iff (o p : Ordering) :
    o.then p = Ordering.eq ↔ (o = Ordering.eq ∧ p = Ordering.eq) := by
  cases o <;> simp [Ordering.then]

lemma cmpNat_lt_iff (x y : Nat) : cmpNat x y = Ordering.lt ↔ x < y := by
  unfold cmpNat; split_ifs <;> simp_all <;> omega

lemma cmpNat_gt_iff (x y : Nat) : cmpNat x y = Ordering.gt ↔ y < x := by
  unfold cmpNat; split_ifs <;> simp_all <;> omega

lemma cmpNat_eq_iff (x y : Nat) : cmpNat x y = Ordering.eq ↔ x = y := by
  unfold cmpNat; split_ifs <;> simp_all <;> omega

lemma cmpInt_lt_iff (x y : Int) : cmpInt x y = Ordering.lt ↔ x < y := by
  unfold cmpInt; split_ifs <;> simp_all <;> omega

lemma cmpInt_gt_iff (x y : Int) : cmpInt x y = Ordering.gt ↔ y < x := by
  unfold cmpInt; split_ifs <;> simp_all <;> omega

lemma cmpInt_eq_iff (x y : Int) : cmpInt x y = Ordering.eq ↔ x = y := by
  unfold cmpInt; split_ifs <;> simp_all <;> omega

lemma specLexCmp_lt_iff (a b : Data) :
    specLexCmp a b = Ordering.lt ↔
      (Header.keyLt a.as_header b.as_header ∨ (Header.keyEq a.as_header b.as_header ∧
        (a.cmdNat < b.cmdNat ∨ (a.cmdNat = b.cmdNat ∧ a.paramKey < b.paramKey)))) := by
  unfold specLexCmp
  simp only [ordThen_lt_iff, ordThen_eq_iff, cmpNat_lt_iff, cmpNat_eq_iff, cmpInt_lt_iff,
    Header.keyLt, Header.keyEq]
  tauto

lemma specLexCmp_gt_iff (a b : Data) :
    specLexCmp a b = Ordering.gt ↔
      (Header.keyLt b.as_header a.as_header ∨ (Header.keyEq a.as_header b.as_header ∧
        (b.cmdNat < a.cmdNat ∨ (a.cmdNat = b.cmdNat ∧ b.paramKey < a.paramKey)))) := by
  unfold specLexCmp
  simp only [ordThen_gt_iff, ordThen_eq_iff, cmpNat_gt_iff, cmpNat_eq_iff, cmpInt_gt_iff,
    Header.keyLt, Header.keyEq]
  constructor <;> intro h <;> rcases h with h | h <;> try tauto
  all_goals omega

lemma specLexCmp_eq_iff (a b : Data) :
    specLexCmp a b = Ordering.eq ↔
      (Header.keyEq a.as_header b.as_header ∧ a.cmdNat = b.cmdNat ∧ a.paramKey = b.paramKey) := by
  unfold specLexCmp
  simp only [ordThen_eq_iff, cmpNat_eq_iff, cmpInt_eq_iff, Header.keyEq]
  tauto

lemma Data.keyLt_trans {a b c : Data} (hab : a.keyLt b) (hbc : b.keyLt c) : a.keyLt c := by
  simp only [Data.keyLt, Header.keyLt, Header.keyEq] at *
  omega

/-- C2: for well-formed `Data` values (variant tag agreeing with the
protocol-version family), `Data::partial_cmp` always returns `some` of the
lexicographic ordering of spec section 4.3 (channel, destination, source,
protocol version, command, 0x0900-`param16`), and the induced relation is a
total order: reflexive, antisymmetric up to logical equality (`Data::eq`),
asymmetric on strict comparisons, and transitive. -/
theorem data_partCmp_total_order (a b c : Data) (ha : a.wf) (hb : b.wf) (hc : c.wf) :
    a.partCmp b = some (specLexCmp a b)
    ∧ (a.partCmp b).isSome = true
    ∧ a.partCmp a = some Ordering.eq
    ∧ (a.partCmp b = some Ordering.eq ↔ a.eq b = true)
    ∧ (a.partCmp b = some Ordering.lt → b.partCmp a = some Ordering.gt)
    ∧ (a.partCmp b = some Ordering.lt → b.partCmp c = some Ordering.lt →
        a.partCmp c = some Ordering.lt) := by
  have refine_some : ∀ x y : Data, x.wf → y.wf → x.partCmp y = some (specLexCmp x y) := by
    intro x y hx hy
    cases h : specLexCmp x y with
    | lt =>
      rw [specLexCmp_lt_iff] at h
      rw [Data.partCmp_lt_iff]
      rcases h with h | ⟨hk, h⟩
      · exact Or.inl h
      · exact Or.inr ⟨hk, Data.wf_tag_eq hx hy hk.2.2.2, h⟩
    | gt =>
      rw [specLexCmp_gt_iff] at h
      rw [Data.partCmp_gt_iff]
      rcases h with h | ⟨hk, h⟩
      · exact Or.inl h
      · exact Or.inr ⟨⟨hk.1.symm, hk.2.1.symm, hk.2.2.1.symm, hk.2.2.2.symm⟩,
          (Data.wf_tag_eq hx hy hk.2.2.2).symm, by tauto⟩
    | eq =>
      rw [specLexCmp_eq_iff] at h
      rw [Data.partCmp_eq_iff]
      exact ⟨h.1, Data.wf_tag_eq hx hy h.1.2.2.2, h.2⟩
  refine ⟨refine_some a b ha hb, ?_, ?_, ?_, ?_, ?_⟩
  · rw [refine_some a b ha hb]; rfl
  · rw [Data.partCmp_eq_iff]
    exact ⟨⟨rfl, rfl, rfl, rfl⟩, rfl, rfl, rfl⟩
  · rw [Data.partCmp_eq_iff, Data.eq_iff_key]
  · intro h
    rw [Data.partCmp_lt_iff] at h
    rw [Data.partCmp_gt_iff]
    exact h
  · intro h1 h2
    rw [Data.partCmp_lt_iff] at *
    exact Data.keyLt_trans h1 h2

/-- Concrete well-formed Packet, Datagram and Telegram values (shared by
several witnesses below). -/
def pktEx : Data := Data.Packet ⟨⟨5, 0x11, 0x10, 0x7E11, 0x10⟩, 0x0100, 1, [0x2A, 0, 0, 0]⟩

/-- Concrete well-formed Datagram value with the 0x0900 command. -/
def dgmEx : Data := Data.Datagram ⟨⟨7, 0x11, 0x0, 0x7E11, 0x20⟩, 0x0900, 5, 7⟩

/-- Concrete well-formed Telegram value. -/
def tgmEx : Data := Data.Telegram ⟨⟨9, 0x11, 0x7771, 0x2011, 0x30⟩, 0x25, []⟩

/-- Concrete instantiation of `data_partCmp_total_order` at a Packet, a
Datagram and a Telegram on the same channel. -/
theorem data_partCmp_total_order_witness :
    pktEx.partCmp dgmEx = some (specLexCmp pktEx dgmEx) ∧ pktEx.partCmp pktEx = some Ordering.eq :=
  ⟨(data_partCmp_total_order pktEx dgmEx tgmEx (by decide) (by decide) (by decide)).1,
   (data_partCmp_total_order pktEx dgmEx tgmEx (by decide) (by decide) (by decide)).2.2.1⟩

/-- `Iterator::position` as used by `DataSet::add_data`: the index of the
first element satisfying the predicate. -/
def position (p : Data → Bool) : List Data → Option Nat
  | [] => none
  | d :: rest => if p d then some 0 else (position p rest).map (· + 1)

/-- The `DataSet` struct of `data_set.rs`: a timestamp and the contained
`Data` values (field `set`). -/
structure DataSet where
  timestamp : Int
  set : List Data
deriving DecidableEq, Repr

/-- `DataSet::from_data` of `data_set.rs`: construct a `DataSet` from a
timestamp and a list of `Data` objects. -/
def DataSet.from_data (timestamp : Int) (set : List Data) : DataSet :=
  { timestamp := timestamp, set := set }

/-- `DataSet::as_data_slice` of `data_set.rs`. -/
def DataSet.as_data_slice (ds : DataSet) : List Data :=
  ds.set

/-- `DataSet::add_data` of `data_set.rs`: replace the first logically-equal
member in place, or append; then raise the timestamp to the new data's
timestamp if that is larger. -/
def DataSet.add_data (ds : DataSet) (data : Data) : DataSet :=
  let timestamp := data.as_header.timestamp
  let newSet :=
    match position (fun d => d.eq data) ds.set with
    | some index => ds.set.set index data
    | none => ds.set ++ [data]
  { timestamp := if ds.timestamp < timestamp then timestamp else ds.timestamp
    set := newSet }

/-- `DataSet::add_data_set` of `data_set.rs`: add every member of the other
set in order, then raise the timestamp to the other set's timestamp if that
is larger. -/
def DataSet.add_data_set (ds : DataSet) (data_set : DataSet) : DataSet :=
  let timestamp := data_set.timestamp
  let ds1 := data_set.set.foldl (fun acc data => acc.add_data data) ds
  { timestamp := if ds1.timestamp < timestamp then timestamp else ds1.timestamp
    set := ds1.set }

/-- `DataSet::remove_data_older_than` of `data_set.rs`: retain members whose
timestamp is at least `min_timestamp`. -/
def DataSet.remove_data_older_than (ds : DataSet) (min_timestamp : Int) : DataSet :=
  { ds with set := ds.set.filter (fun data => decide (data.as_header.timestamp ≥ min_timestamp)) }

lemma position_eq_none_iff (p : Data → Bool) (l : List Data) :
    position p l = none ↔ ∀ x ∈ l, p x = false := by
  induction l with
  | nil => simp [position]
  | cons d rest ih =>
    by_cases hd : p d <;> simp [position, hd, Option.map_eq_none', ih]

lemma position_some_spec (p : Data → Bool) (l : List Data) (i : Nat)
    (h : position p l = some i) :
    ∃ hi : i < l.length, p (l.get ⟨i, hi⟩) = true ∧
      ∀ j (hj : j < i), p (l.get ⟨j, Nat.lt_trans hj hi⟩) = false := by
  induction l generalizing i with
  | nil => simp [position] at h
  | cons d rest ih =>
    by_cases hd : p d
    · simp [position, hd] at h
      subst h
      exact ⟨Nat.succ_pos _, hd, fun j hj => absurd hj (Nat.not_lt_zero j)⟩
    · simp [position, hd, Option.map_eq_some'] at h
      obtain ⟨i', hi', rfl⟩ := h
      obtain ⟨hlt, hfound, hfirst⟩ := ih i' hi'
      refine ⟨Nat.succ_lt_succ hlt, hfound, ?_⟩
      intro j hj
      cases j with
      | zero => simpa using hd
      | succ j' => exact hfirst j' (Nat.lt_of_succ_lt_succ hj)

lemma position_eq_some_of (p : Data → Bool) (l : List Data) (i : Nat)
    (hi : i < l.length) (hfound : p (l.get ⟨i, hi⟩) = true)
    (hfirst : ∀ j (hj : j < i), p (l.get ⟨j, Nat.lt_trans hj hi⟩) = false) :
    position p l = some i := by
  induction l generalizing i with
  | nil => exact absurd hi (Nat.not_lt_zero i)
  | cons d rest ih =>
    by_cases hd : p d
    · have hi0 : i = 0 := by
        by_contra hne
        have h0 : 0 < i := Nat.pos_of_ne_zero hne
        have := hfirst 0 h0
        simp at this
        exact absurd hd (by simp [this])
      subst hi0
      simp [position, hd]
    · have hi0 : i ≠ 0 := by
        intro h0
        subst h0
        simp at hfound
        exact hd hfound
      obtain ⟨i', rfl⟩ := Nat.exists_eq_succ_of_ne_zero hi0
      have hrec := ih i' (Nat.lt_of_succ_lt_succ hi) (by simpa using hfound)
        (fun j hj => by simpa using hfirst (j + 1) (Nat.succ_lt_succ hj))
      simp [position, hd, Option.map_eq_some', hrec]

lemma int_if_lt_eq_max (a b : Int) : (if a < b then b else a) = max a b := by
  split_ifs with h
  · exact (max_eq_right (le_of_lt h)).symm
  · exact (max_eq_left (by omega)).symm

lemma DataSet.add_data_timestamp_mono (ds : DataSet) (d : Data) :
    ds.timestamp ≤ (ds.add_data d).timestamp := by
  unfold DataSet.add_data
  dsimp only
  split_ifs with h <;> omega

lemma DataSet.foldl_add_data_timestamp_mono (l : List Data) (ds : DataSet) :
    ds.timestamp ≤ (l.foldl (fun acc data => acc.add_data data) ds).timestamp := by
  induction l generalizing ds with
  | nil => exact le_refl _
  | cons d rest ih =>
    exact le_trans (ds.add_data_timestamp_mono d) (ih (ds.add_data d))

lemma DataSet.add_data_set_timestamp_mono (ds other : DataSet) :
    ds.timestamp ≤ (ds.add_data_set other).timestamp := by
  unfold DataSet.add_data_set
  dsimp only
  have := DataSet.foldl_add_data_timestamp_mono other.set ds
  split_ifs with h <;> omega

/-- C3: `DataSet::add_data` overwrites the first logically-equal member in
place (keeping its slot) or appends when none exists, and afterwards the
`DataSet` timestamp equals the maximum of its previous value and the new
data's header timestamp; consequently the timestamp never decreases across
`add_data` or `add_data_set`. -/
theorem add_data_spec (ds : DataSet) (d : Data) :
    (ds.add_data d).timestamp = max ds.timestamp d.as_header.timestamp
    ∧ ((∀ x ∈ ds.set, x.eq d = false) → (ds.add_data d).set = ds.set ++ [d])
    ∧ (∀ i (hi : i < ds.set.length), (ds.set.get ⟨i, hi⟩).eq d = true →
        (∀ j (hj : j < i), (ds.set.get ⟨j, Nat.lt_trans hj hi⟩).eq d = false) →
        (ds.add_data d).set = ds.set.set i d)
    ∧ ds.timestamp ≤ (ds.add_data d).timestamp
    ∧ (∀ other : DataSet, ds.timestamp ≤ (ds.add_data_set other).timestamp) := by
  refine ⟨?_, ?_, ?_, ds.add_data_timestamp_mono d, fun other => ds.add_data_set_timestamp_mono other⟩
  · unfold DataSet.add_data
    dsimp only
    exact int_if_lt_eq_max _ _
  · intro hnone
    unfold DataSet.add_data
    dsimp only
    rw [(position_eq_none_iff _ _).2 hnone]
  · intro i hi hfound hfirst
    unfold DataSet.add_data
    dsimp only
    rw [position_eq_some_of (fun x => x.eq d) ds.set i hi hfound hfirst]

/-- Concrete instantiation of `add_data_spec`: adding to an empty set
appends, adding a logically-equal Packet overwrites slot 0. -/
theorem add_data_spec_witness :
    ((DataSet.from_data 0 []).add_data pktEx).set = [] ++ [pktEx]
    ∧ ((DataSet.from_data 0 [pktEx]).add_data pktEx).set = [pktEx].set 0 pktEx :=
  ⟨(add_data_spec (DataSet.from_data 0 []) pktEx).2.1 (by decide),
   (add_data_spec (DataSet.from_data 0 [pktEx]) pktEx).2.2.1 0 (by decide) (by decide)
     (fun j hj => absurd hj (Nat.not_lt_zero j))⟩

/-- No two members of the list are logically equal under `Data::eq` (the
`DataSet` member invariant of spec section 3). -/
def distinctData (l : List Data) : Prop :=
  List.Pairwise (fun a b => a.eq b = false) l

lemma Data.eq_symm (a b : Data) : a.eq b = b.eq a := by
  cases hab : a.eq b <;> cases hba : b.eq a <;> try rfl
  · exact absurd ((Data.eq_iff_identityKey a b).2
      ((Data.eq_iff_identityKey b a).1 hba).symm) (by simp [hab])
  · exact absurd ((Data.eq_iff_identityKey b a).2
      ((Data.eq_iff_identityKey a b).1 hab).symm) (by simp [hba])

lemma Data.eq_substL {a a' b : Data} (hkey : a.identityKey = a'.identityKey) :
    a.eq b = a'.eq b := by
  cases hab : a.eq b <;> cases hab' : a'.eq b <;> try rfl
  · exact absurd ((Data.eq_iff_identityKey a b).2
      (hkey.trans ((Data.eq_iff_identityKey a' b).1 hab'))) (by simp [hab])
  · exact absurd ((Data.eq_iff_identityKey a' b).2
      (hkey.symm.trans ((Data.eq_iff_identityKey a b).1 hab))) (by simp [hab'])

lemma Data.eq_substR {a b b' : Data} (hkey : b.identityKey = b'.identityKey) :
    a.eq b = a.eq b' := by
  rw [Data.eq_symm, Data.eq_substL hkey, ← Data.eq_symm]

lemma DataSet.add_data_distinct (ds : DataSet) (d : Data) (h : distinctData ds.set) :
    distinctData (ds.add_data d).set := by
  unfold DataSet.add_data
  dsimp only
  cases hp : position (fun x => x.eq d) ds.set with
  | none =>
    rw [position_eq_none_iff] at hp
    rw [distinctData, List.pairwise_append]
    refine ⟨h, List.pairwise_singleton _ _, ?_⟩
    intro a ha b hb
    rw [List.mem_singleton] at hb
    subst hb
    exact hp a ha
  | some i =>
    obtain ⟨hi, hfound, -⟩ := position_some_spec _ _ _ hp
    have hkey : (ds.set.get ⟨i, hi⟩).identityKey = d.identityKey :=
      (Data.eq_iff_identityKey _ _).1 hfound
    rw [distinctData, List.pairwise_iff_getElem] at h ⊢
    intro j k hj hk hjk
    rw [List.length_set] at hj hk
    rw [List.getElem_set, List.getElem_set]
    have hgi : ds.set.get ⟨i, hi⟩ = ds.set[i] := List.get_eq_getElem _ _
    by_cases hij : i = j <;> by_cases hik : i = k
    · omega
    · rw [if_pos hij, if_neg hik, Data.eq_substL hkey.symm, hgi]
      subst hij
      exact h i k hj hk hjk
    · rw [if_neg hij, if_pos hik, Data.eq_substR hkey.symm, hgi]
      subst hik
      exact h j i hj hk hjk
    · rw [if_neg hij, if_neg hik]
      exact h j k hj hk hjk

lemma DataSet.foldl_add_data_distinct (l : List Data) (ds : DataSet) (h : distinctData ds.set) :
    distinctData ((l.foldl (fun acc data => acc.add_data data) ds).set) := by
  induction l generalizing ds with
  | nil => exact h
  | cons d rest ih => exact ih (ds.add_data d) (ds.add_data_distinct d h)

lemma DataSet.add_data_set_distinct (ds other : DataSet) (h : distinctData ds.set) :
    distinctData (ds.add_data_set other).set := by
  unfold DataSet.add_data_set
  dsimp only
  exact DataSet.foldl_add_data_distinct other.set ds h

/-- A mutation of a `DataSet` through its two inserting operations. -/
inductive DSOp where
  | addD : Data → DSOp
  | addSet : DataSet → DSOp

/-- Apply one `DSOp` to a `DataSet`. -/
def DSOp.apply (ds : DataSet) : DSOp → DataSet
  | DSOp.addD d => ds.add_data d
  | DSOp.addSet other => ds.add_data_set other

/-- C4: starting from a `DataSet` whose members contain no two
logically-equal values, any sequence of `add_data` / `add_data_set`
operations preserves the invariant that the member list has no two
logically-equal entries. -/
theorem data_set_distinct_invariant (ds : DataSet) (h : distinctData ds.set)
    (ops : List DSOp) : distinctData ((ops.foldl DSOp.apply ds).set) := by
  induction ops generalizing ds with
  | nil => exact h
  | cons op rest ih =>
    refine ih (DSOp.apply ds op) ?_
    cases op with
    | addD d => exact ds.add_data_distinct d h
    | addSet other => exact ds.add_data_set_distinct other h

/-- Concrete instantiation of `data_set_distinct_invariant`: inserting the
same Packet twice and then a Datagram leaves the members pairwise
logically distinct. -/
theorem data_set_distinct_invariant_witness :
    distinctData (([DSOp.addD pktEx, DSOp.addD pktEx,
      DSOp.addSet (DataSet.from_data 3 [dgmEx])].foldl DSOp.apply
        (DataSet.from_data 0 [])).set) :=
  data_set_distinct_invariant (DataSet.from_data 0 []) (List.Pairwise.nil) _

/-- C7: `remove_data_older_than` keeps exactly the members whose header
timestamp is at least the cutoff, preserves their relative order (the result
is a sublist of the original members), and leaves the `DataSet`'s own
timestamp unchanged. -/
theorem remove_data_older_than_spec (ds : DataSet) (t : Int) :
    (ds.remove_data_older_than t).timestamp = ds.timestamp
    ∧ (ds.remove_data_older_than t).set.Sublist ds.set
    ∧ ∀ d : Data, d ∈ (ds.remove_data_older_than t).set ↔
        (d ∈ ds.set ∧ t ≤ d.as_header.timestamp) := by
  refine ⟨rfl, List.filter_sublist _, ?_⟩
  intro d
  rw [DataSet.remove_data_older_than]
  simp [List.mem_filter, ge_iff_le]

/-- C10: `DataSet::from_data` stores the supplied timestamp and member list
verbatim and performs no deduplication: a list containing the same Packet
twice yields a `DataSet` whose members violate the no-duplicates
invariant. -/
theorem from_data_verbatim :
    (∀ (t : Int) (l : List Data),
      (DataSet.from_data t l).timestamp = t ∧ (DataSet.from_data t l).set = l)
    ∧ ¬ distinctData ((DataSet.from_data 0 [pktEx, pktEx]).set) := by
  refine ⟨fun t l => ⟨rfl, rfl⟩, ?_⟩
  intro h
  have := List.rel_of_pairwise_cons h (List.mem_singleton_self _)
  exact absurd this (by decide)

/-- Insertion step of the comparison sort modelling `Vec::sort_by` with the
comparator `l.partial_cmp(r).unwrap()`: a `none` comparison (the unwrap's
panic) propagates as `none`. -/
def insertSorted (x : Data) : List Data → Option (List Data)
  | [] => some [x]
  | y :: ys =>
    match x.partCmp y with
    | none => none
    | some Ordering.gt => (insertSorted x ys).map (fun zs => y :: zs)
    | some _ => some (x :: y :: ys)

/-- Comparison sort of a member list by `Data::partial_cmp`, in the `Option`
monad: `none` models the panic of the `unwrap` inside `DataSet::sort`'s
comparator on an incomparable pair. -/
def sortByPartCmp : List Data → Option (List Data)
  | [] => some []
  | x :: xs => (sortByPartCmp xs).bind (insertSorted x)

/-- `DataSet::sort` of `data_set.rs`: sort the members in place with the
comparator `l.partial_cmp(r).unwrap()`; `none` models the panic. -/
def DataSet.sort (ds : DataSet) : Option DataSet :=
  (sortByPartCmp ds.set).map (fun sorted => { ds with set := sorted })

/-- The precondition under which `partial_cmp` is total on a pair: equal
protocol versions imply equal variant tags (spec section 4.3). -/
def protoTagCompatible (a b : Data) : Prop :=
  a.as_header.protocol_version = b.as_header.protocol_version → a.tag = b.tag

lemma Data.keyLt_asymm {a b : Data} (h : a.keyLt b) : ¬ b.keyLt a := by
  simp only [Data.keyLt, Header.keyLt, Header.keyEq] at *
  omega

lemma notKeyLt_trans {x y z : Data} (cxy : protoTagCompatible x y)
    (cyz : protoTagCompatible y z) (cxz : protoTagCompatible x z)
    (h1 : ¬ y.keyLt x) (h2 : ¬ z.keyLt y) : ¬ z.keyLt x := by
  simp only [Data.keyLt, Header.keyLt, Header.keyEq, protoTagCompatible] at *
  omega

lemma partCmp_ne_none_of_compatible {a b : Data} (h : protoTagCompatible a b) :
    a.partCmp b ≠ none := by
  rw [Ne, Data.partCmp_none_iff]
  rintro ⟨hkey, htag⟩
  exact htag (h hkey.2.2.2)

lemma insertSorted_perm (x : Data) (l m : List Data) (h : insertSorted x l = some m) :
    m.Perm (x :: l) := by
  induction l generalizing m with
  | nil =>
    simp [insertSorted] at h
    subst h
    exact List.Perm.refl _
  | cons y ys ih =>
    rw [insertSorted] at h
    cases hc : x.partCmp y with
    | none => rw [hc] at h; exact absurd h (by simp)
    | some o =>
      rw [hc] at h
      cases o with
      | gt =>
        simp only [Option.map_eq_some'] at h
        obtain ⟨m', hm', rfl⟩ := h
        exact ((ih m' hm').cons y).trans (List.Perm.swap x y ys)
      | lt =>
        simp only [Option.some.injEq] at h
        subst h
        exact List.Perm.refl _
      | eq =>
        simp only [Option.some.injEq] at h
        subst h
        exact List.Perm.refl _

lemma insertSorted_isSome (x : Data) (l : List Data)
    (h : ∀ y ∈ l, x.partCmp y ≠ none) : ∃ m, insertSorted x l = some m := by
  induction l with
  | nil => exact ⟨[x], rfl⟩
  | cons y ys ih =>
    rw [insertSorted]
    cases hc : x.partCmp y with
    | none => exact absurd hc (h y (List.mem_cons_self y ys))
    | some o =>
      cases o with
      | gt =>
        obtain ⟨m', hm'⟩ := ih (fun z hz => h z (List.mem_cons_of_mem y hz))
        exact ⟨y :: m', by rw [hm']; rfl⟩
      | lt => exact ⟨x :: y :: ys, rfl⟩
      | eq => exact ⟨x :: y :: ys, rfl⟩

lemma insertSorted_pairwise (x : Data) (l m : List Data)
    (hcomp : ∀ a ∈ x :: l, ∀ b ∈ x :: l, protoTagCompatible a b)
    (hsorted : List.Pairwise (fun a b => ¬ b.keyLt a) l)
    (h : insertSorted x l = some m) :
    List.Pairwise (fun a b => ¬ b.keyLt a) m := by
  induction l generalizing m with
  | nil =>
    simp [insertSorted] at h
    subst h
    exact List.pairwise_singleton _ _
  | cons y ys ih =>
    rw [insertSorted] at h
    rw [List.pairwise_cons] at hsorted
    obtain ⟨hy, hys⟩ := hsorted
    cases hc : x.partCmp y with
    | none => rw [hc] at h; exact absurd h (by simp)
    | some o =>
      rw [hc] at h
      cases o with
      | gt =>
        simp only [Option.map_eq_some'] at h
        obtain ⟨m', hm', rfl⟩ := h
        have hperm := insertSorted_perm x ys m' hm'
        have hyx : y.keyLt x := (Data.partCmp_gt_iff x y).1 hc
        have hcomp' : ∀ a ∈ x :: ys, ∀ b ∈ x :: ys, protoTagCompatible a b := by
          have hsub : ∀ c, c ∈ x :: ys → c ∈ x :: y :: ys := by
            intro c hc2
            rcases List.mem_cons.1 hc2 with h1 | h1
            · exact h1 ▸ List.mem_cons_self _ _
            · exact List.mem_cons_of_mem x (List.mem_cons_of_mem y h1)
          intro a ha b hb
          exact hcomp a (hsub a ha) b (hsub b hb)
        refine List.Pairwise.cons ?_ (ih m' hcomp' hys hm')
        intro z hz
        rcases List.mem_cons.1 ((hperm.mem_iff).1 hz) with hzx | hzys
        · subst hzx
          exact Data.keyLt_asymm hyx
        · exact hy z hzys
      | lt =>
        simp only [Option.some.injEq] at h
        subst h
        have hxy : x.keyLt y := (Data.partCmp_lt_iff x y).1 hc
        refine List.Pairwise.cons ?_ (List.Pairwise.cons hy hys)
        intro z hz
        rcases List.mem_cons.1 hz with hzy | hzys
        · subst hzy
          exact Data.keyLt_asymm hxy
        · refine notKeyLt_trans
            (hcomp x (List.mem_cons_self _ _) y (List.mem_cons_of_mem x (List.mem_cons_self _ _)))
            (hcomp y (List.mem_cons_of_mem x (List.mem_cons_self _ _))
              z (List.mem_cons_of_mem x (List.mem_cons_of_mem y hzys)))
            (hcomp x (List.mem_cons_self _ _)
              z (List.mem_cons_of_mem x (List.mem_cons_of_mem y hzys)))
            (Data.keyLt_asymm hxy) (hy z hzys)
      | eq =>
        simp only [Option.some.injEq] at h
        subst h
        have hxy := (Data.partCmp_eq_iff x y).1 hc
        have hnyx : ¬ y.keyLt x := by
          simp only [Data.keyLt, Header.keyLt, Header.keyEq] at *
          omega
        refine List.Pairwise.cons ?_ (List.Pairwise.cons hy hys)
        intro z hz
        rcases List.mem_cons.1 hz with hzy | hzys
        · subst hzy
          exact hnyx
        · refine notKeyLt_trans
            (hcomp x (List.mem_cons_self _ _) y (List.mem_cons_of_mem x (List.mem_cons_self _ _)))
            (hcomp y (List.mem_cons_of_mem x (List.mem_cons_self _ _))
              z (List.mem_cons_of_mem x (List.mem_cons_of_mem y hzys)))
            (hcomp x (List.mem_cons_self _ _)
              z (List.mem_cons_of_mem x (List.mem_cons_of_mem y hzys)))
            hnyx (hy z hzys)

lemma sortByPartCmp_sorted (l : List Data)
    (hcomp : ∀ a ∈ l, ∀ b ∈ l, protoTagCompatible a b) :
    ∃ m, sortByPartCmp l = some m ∧ m.Perm l ∧
      List.Pairwise (fun a b => ¬ b.keyLt a) m := by
  induction l with
  | nil => exact ⟨[], rfl, List.Perm.refl _, List.Pairwise.nil⟩
  | cons x xs ih =>
    obtain ⟨m', hm', hperm', hpw'⟩ := ih
      (fun a ha b hb => hcomp a (List.mem_cons_of_mem x ha) b (List.mem_cons_of_mem x hb))
    obtain ⟨m, hm⟩ := insertSorted_isSome x m' (by
      intro y hy
      exact partCmp_ne_none_of_compatible
        (hcomp x (List.mem_cons_self _ _)
          y (List.mem_cons_of_mem x (hperm'.mem_iff.1 hy))))
    refine ⟨m, ?_, ?_, ?_⟩
    · rw [sortByPartCmp, hm', Option.some_bind, hm]
    · exact (insertSorted_perm x m' m hm).trans (hperm'.cons x)
    · refine insertSorted_pairwise x m' m (fun a ha b hb => ?_) hpw' hm
      have hmem : ∀ c, c ∈ x :: m' → c ∈ x :: xs := by
        intro c hc
        rcases List.mem_cons.1 hc with hcx | hcm
        · exact hcx ▸ List.mem_cons_self _ _
        · exact List.mem_cons_of_mem x (hperm'.mem_iff.1 hcm)
      exact hcomp a (hmem a ha) b (hmem b hb)

/-- C9: `DataSet::sort` orders members with the comparator
`l.partial_cmp(r).unwrap()`.  Whenever any two members with equal
protocol_version share a variant tag, the comparator never sees `None`, so
the unwrap cannot panic: sort returns a permutation of the members that is
pairwise ordered (no later member strictly precedes an earlier one) with the
`DataSet` timestamp unchanged.  Conversely, a concrete `DataSet` violating
the precondition — a Packet and a Datagram with identical header tuples —
makes sort hit the panic (modelled as `none`). -/
theorem data_set_sort_safety (ds : DataSet)
    (hpre : ∀ a ∈ ds.set, ∀ b ∈ ds.set,
      a.as_header.protocol_version = b.as_header.protocol_version → a.tag = b.tag) :
    (∃ sorted : DataSet, ds.sort = some sorted ∧ sorted.timestamp = ds.timestamp
      ∧ sorted.set.Perm ds.set
      ∧ List.Pairwise (fun a b : Data => a.partCmp b ≠ some Ordering.gt) sorted.set)
    ∧ (∃ bad : DataSet,
        (¬ ∀ a ∈ bad.set, ∀ b ∈ bad.set,
          a.as_header.protocol_version = b.as_header.protocol_version → a.tag = b.tag)
        ∧ bad.sort = none) := by
  constructor
  · obtain ⟨m, hm, hperm, hpw⟩ := sortByPartCmp_sorted ds.set hpre
    refine ⟨{ ds with set := m }, ?_, rfl, hperm, ?_⟩
    · rw [DataSet.sort, hm]; rfl
    · refine hpw.imp ?_
      intro a b hab
      rw [Ne, Data.partCmp_gt_iff]
      exact hab
  · refine ⟨DataSet.from_data 0
      [Data.Packet ⟨⟨0, 1, 2, 3, 0x10⟩, 0, 0, []⟩,
       Data.Datagram ⟨⟨0, 1, 2, 3, 0x10⟩, 0, 0, 0⟩], by decide, by decide⟩

/-- Concrete instantiation of `data_set_sort_safety`: sorting a two-member
well-formed `DataSet` succeeds. -/
theorem data_set_sort_safety_witness :
    ∃ sorted : DataSet,
      (DataSet.from_data 0 [dgmEx, pktEx]).sort = some sorted
      ∧ sorted.timestamp = (DataSet.from_data 0 [dgmEx, pktEx]).timestamp
      ∧ sorted.set.Perm (DataSet.from_data 0 [dgmEx, pktEx]).set
      ∧ List.Pairwise (fun a b : Data => a.partCmp b ≠ some Ordering.gt) sorted.set :=
  (data_set_sort_safety (DataSet.from_data 0 [dgmEx, pktEx]) (by decide)).1

/-- Modelled from the spec: a unit identifier from the missing
`specification_file.rs` (an opaque id). -/
structure UnitId where
  id : Int
deriving DecidableEq, Repr

/-- Modelled from the spec: a unit family from the missing
`specification_file.rs` (opaque; none of the verified operations inspects
it). -/
structure UnitFamily where
  code : Nat
deriving DecidableEq, Repr

/-- Modelled from the spec: the `Type` enum of the missing
`specification_file.rs` (spec section 3: Number, Time, WeekTime,
DateTime). -/
inductive VbusType where
  | Number
  | Time
  | WeekTime
  | DateTime
deriving DecidableEq, Repr

/-- Modelled from the spec: a field part of the missing
`specification_file.rs` (spec section 3): one contributing byte with offset,
mask, bit position, signedness and weight. -/
structure PacketTemplateFieldPart where
  offset : Nat
  mask : Nat
  bit_pos : Nat
  is_signed : Bool
  factor : Int
deriving DecidableEq, Repr

/-- The `PacketFieldSpec` struct of `specification.rs`. -/
structure PacketFieldSpec where
  field_id : String
  packet_field_id : String
  name : String
  unit_id : UnitId
  unit_family : UnitFamily
  unit_code : String
  unit_text : String
  precision : Int
  typ : VbusType
  parts : List PacketTemplateFieldPart
deriving DecidableEq, Repr

/-- Bitwise AND of two bytes, written as an 8-bit sum so that it evaluates
by kernel reduction. -/
def byteAnd (a b : Nat) : Nat :=
  (List.range 8).foldl
    (fun acc i => acc + (if a / 2 ^ i % 2 = 1 ∧ b / 2 ^ i % 2 = 1 then 2 ^ i else 0)) 0

/-- The two's-complement AND of an `i64` value with a byte mask: only the
low eight bits of the value survive (`Int.emod 256` is exactly those bits),
ANDed with the mask. -/
def maskAnd (v : Int) (mask : Nat) : Int :=
  Int.ofNat (byteAnd (v.emod 256).toNat mask)

/-- Loop body of `PacketFieldSpec::get_raw_value_i64`: skip out-of-range
parts, otherwise sign- or zero-extend the byte, apply the mask when it is not
0xFF, shift right when `bit_pos > 0`, and accumulate `value * factor` with
the valid flag set. -/
def rawStep (buf : List (Fin 256)) (st : Bool × Int) (part : PacketTemplateFieldPart) :
    Bool × Int :=
  if h : part.offset < buf.length then
    let byte := (buf.get ⟨part.offset, h⟩).val
    let part_value : Int :=
      if part.is_signed then (if 128 ≤ byte then (byte : Int) - 256 else (byte : Int))
      else (byte : Int)
    let part_value := if part.mask ≠ 0xFF then maskAnd part_value part.mask else part_value
    let part_value := if part.bit_pos > 0 then part_value >>> part.bit_pos else part_value
    (true, st.2 + part_value * part.factor)
  else st

/-- `PacketFieldSpec::get_raw_value_i64` of `specification.rs`: fold the
parts over the buffer; report `none` when no part was in range. -/
def PacketFieldSpec.get_raw_value_i64 (self : PacketFieldSpec) (buf : List (Fin 256)) :
    Option Int :=
  let st := self.parts.foldl (rawStep buf) (false, 0)
  if st.1 then some st.2 else none

/-- `power_of_ten_f64` of `specification.rs`, with `f64` modelled as exact
rationals: ten to a signed power. -/
def power_of_ten_f64 (n : Int) : ℚ :=
  (10 : ℚ) ^ n

/-- `PacketFieldSpec::get_raw_value_f64` of `specification.rs` (with `f64`
modelled as exact rationals): the raw integer value scaled by
`10^(-precision)`. -/
def PacketFieldSpec.get_raw_value_f64 (self : PacketFieldSpec) (buf : List (Fin 256)) :
    Option ℚ :=
  match self.get_raw_value_i64 buf with
  | some raw_value => some ((raw_value : ℚ) * power_of_ten_f64 (- self.precision))
  | none => none

/-- The contribution of one in-range part, as spec section 4.6 describes it:
sign- or zero-extend the addressed byte, mask unless the mask is 0xFF,
arithmetic right shift when `bit_pos > 0`. -/
def partContrib (buf : List (Fin 256)) (part : PacketTemplateFieldPart) : Int :=
  let byte := (buf.getD part.offset 0).val
  let part_value : Int :=
    if part.is_signed then (if 128 ≤ byte then (byte : Int) - 256 else (byte : Int))
    else (byte : Int)
  let part_value := if part.mask ≠ 0xFF then maskAnd part_value part.mask else part_value
  if part.bit_pos > 0 then part_value >>> part.bit_pos else part_value

lemma rawStep_in_range (buf : List (Fin 256)) (st : Bool × Int)
    (part : PacketTemplateFieldPart) (h : part.offset < buf.length) :
    rawStep buf st part = (true, st.2 + partContrib buf part * part.factor) := by
  rw [rawStep, dif_pos h, partContrib]
  dsimp only
  rw [List.getD_eq_getElem buf 0 h]
  rfl

lemma rawStep_out_of_range (buf : List (Fin 256)) (st : Bool × Int)
    (part : PacketTemplateFieldPart) (h : ¬ part.offset < buf.length) :
    rawStep buf st part = st := by
  rw [rawStep, dif_neg h]

lemma foldl_rawStep_spec (buf : List (Fin 256)) (parts : List PacketTemplateFieldPart)
    (v : Bool) (acc : Int) :
    parts.foldl (rawStep buf) (v, acc) =
      (v || parts.any (fun p => decide (p.offset < buf.length)),
       acc + ((parts.filter (fun p => decide (p.offset < buf.length))).map
         (fun p => partContrib buf p * p.factor)).sum) := by
  induction parts generalizing v acc with
  | nil => simp
  | cons p rest ih =>
    by_cases h : p.offset < buf.length
    · rw [List.foldl_cons, rawStep_in_range buf _ p h, ih, List.any_cons, List.filter_cons]
      simp [h, add_assoc]
    · rw [List.foldl_cons, rawStep_out_of_range buf _ p h, ih, List.any_cons, List.filter_cons]
      simp [h]

/-- C5: `get_raw_value_i64` returns `none` exactly when every part's offset
is beyond the buffer, and otherwise `some` of the signed sum, over exactly
the in-range parts, of the part value (sign- or zero-extended byte, masked
when the mask is not 0xFF, arithmetically shifted when `bit_pos > 0`) times
its factor; a signed part reading byte 0xFF with mask 0xFF and `bit_pos` 0
contributes `-1 * factor`.  Short buffers silently skip parts — the
function is total. -/
theorem get_raw_value_i64_spec (fs : PacketFieldSpec) (buf : List (Fin 256)) :
    (fs.get_raw_value_i64 buf = none ↔ ∀ part ∈ fs.parts, buf.length ≤ part.offset)
    ∧ ((∃ part ∈ fs.parts, part.offset < buf.length) →
        fs.get_raw_value_i64 buf =
          some (((fs.parts.filter (fun p => decide (p.offset < buf.length))).map
            (fun p => partContrib buf p * p.factor)).sum))
    ∧ (∀ part : PacketTemplateFieldPart, part.is_signed = true → part.mask = 0xFF →
        part.bit_pos = 0 → ∀ h : part.offset < buf.length,
        buf.get ⟨part.offset, h⟩ = (255 : Fin 256) →
        partContrib buf part * part.factor = -1 * part.factor) := by
  refine ⟨?_, ?_, ?_⟩
  · rw [PacketFieldSpec.get_raw_value_i64]
    rw [foldl_rawStep_spec]
    simp only [Bool.false_or, zero_add]
    constructor
    · intro h
      by_cases hv : fs.parts.any (fun p => decide (p.offset < buf.length)) = true
      · rw [if_pos hv] at h
        exact absurd h (by simp)
      · intro part hp
        by_contra hlt
        exact hv (List.any_eq_true.2 ⟨part, hp, by simpa using Nat.lt_of_not_le hlt⟩)
    · intro h
      have hv : fs.parts.any (fun p => decide (p.offset < buf.length)) = false := by
        rw [List.any_eq_false]
        intro p hp
        simpa using Nat.not_lt.2 (h p hp)
      rw [if_neg (by simp [hv])]
  · intro ⟨part, hp, hlt⟩
    rw [PacketFieldSpec.get_raw_value_i64]
    rw [foldl_rawStep_spec]
    simp only [Bool.false_or, zero_add]
    rw [if_pos (List.any_eq_true.2 ⟨part, hp, by simpa using hlt⟩)]
  · intro part hsign hmask hbit h hbyte
    rw [partContrib]
    rw [List.getD_eq_getElem buf 0 h, show buf[part.offset] = (255 : Fin 256) from hbyte,
      hsign, hmask, hbit]
    rw [show ((255 : Fin 256) : Nat) = 255 from rfl]
    norm_num

/-- Concrete instantiation of `get_raw_value_i64_spec`: a single signed part
reading byte 0xFF yields `-factor`, and an empty buffer yields `none`. -/
theorem get_raw_value_i64_spec_witness :
    PacketFieldSpec.get_raw_value_i64
      ⟨"f", "pf", "n", ⟨0⟩, ⟨0⟩, "c", "t", 0, VbusType.Number,
        [⟨0, 0xFF, 0, true, 3⟩]⟩ [(255 : Fin 256)] =
      some (((([⟨0, 0xFF, 0, true, 3⟩] :
          List PacketTemplateFieldPart).filter
            (fun p => decide (p.offset < ([(255 : Fin 256)] : List (Fin 256)).length))).map
        (fun p => partContrib [(255 : Fin 256)] p * p.factor)).sum)
    ∧ PacketFieldSpec.get_raw_value_i64
      ⟨"f", "pf", "n", ⟨0⟩, ⟨0⟩, "c", "t", 0, VbusType.Number,
        [⟨0, 0xFF, 0, true, 3⟩]⟩ [] = none :=
  ⟨(get_raw_value_i64_spec _ _).2.1 ⟨⟨0, 0xFF, 0, true, 3⟩, by decide, by decide⟩,
   (get_raw_value_i64_spec _ _).1.2 (by decide)⟩

/-- Modelled from the spec: the `Language` enum of the missing
`specification_file.rs` (named `Lang` here; `Language` is taken by Mathlib): English, German, French. -/
inductive Lang where
  | En
  | De
  | Fr
deriving DecidableEq, Repr

/-- Modelled from the spec: a device template of the missing
`specification_file.rs`; holds the peer mask and the index of the localized
device name. -/
structure DeviceTemplate where
  peer_mask : Nat
  name_localized_text_index : Nat
deriving DecidableEq, Repr

/-- Modelled from the spec: a packet-template field of the missing
`specification_file.rs`, carrying the text/unit/type indices, precision and
parts consumed by `get_or_create_cached_packet_spec`. -/
structure PacketTemplateField where
  id_text_index : Nat
  name_localized_text_index : Nat
  unit_id : UnitId
  precision : Int
  type_id : Nat
  parts : List PacketTemplateFieldPart
deriving DecidableEq, Repr

/-- Modelled from the spec: a packet template of the missing
`specification_file.rs`: the ordered field list. -/
structure PacketTemplate where
  fields : List PacketTemplateField
deriving DecidableEq, Repr

/-- Modelled from the spec: the unit record returned by `unit_by_id` of the
missing `specification_file.rs`. -/
structure UnitData where
  unit_family_id : Nat
  unit_code_text_index : Nat
  unit_text_text_index : Nat
deriving DecidableEq, Repr

/-- Modelled from the spec: the `SpecificationFile` interface of the missing
`specification_file.rs` (spec section 6): an opaque catalog exposing template
lookups and text/unit/type tables. -/
structure SpecificationFile where
  find_device_template : Nat → Nat → Option DeviceTemplate
  find_packet_template : Nat → Nat → Nat → Option PacketTemplate
  text_by_index : Nat → String
  localized_text_by_index : Nat → Lang → String
  unit_by_id : UnitId → UnitData
  unit_family_by_id : Nat → UnitFamily
  type_by_id : Nat → VbusType

/-- The `DeviceSpec` struct of `specification.rs`. -/
structure DeviceSpec where
  device_id : String
  channel : Nat
  self_address : Nat
  peer_address : Option Nat
  name : String
deriving DecidableEq, Repr

/-- The `PacketSpec` struct of `specification.rs` (the `Rc` sharing of the
device specs is modelled by plain values). -/
structure PacketSpec where
  packet_id : String
  channel : Nat
  destination_address : Nat
  source_address : Nat
  command : Nat
  destination_device : DeviceSpec
  source_device : DeviceSpec
  name : String
  fields : List PacketFieldSpec
deriving DecidableEq, Repr

/-- Uppercase hexadecimal digit. -/
def hexChar (n : Nat) : Char :=
  if n < 10 then Char.ofNat (48 + n) else Char.ofNat (55 + n)

/-- Hex digits of `n`, most significant first (fuel-based so that it reduces
by kernel computation; the fuel `n` always suffices). -/
def natToHexAux (fuel n : Nat) : List Char :=
  match fuel with
  | 0 => []
  | fuel + 1 => if n = 0 then [] else natToHexAux fuel (n / 16) ++ [hexChar (n % 16)]

/-- Rust's `{:0wX}` formatting: uppercase hex, left-padded with zeros to at
least `width` digits. -/
def hexPad (width n : Nat) : String :=
  let ds := natToHexAux n n
  let ds := if ds.length < width then List.replicate (width - ds.length) '0' ++ ds else ds
  String.mk ds

/-- The cache-hit predicate of `get_cached_device_spec` in
`specification.rs`: channel and self address must match, and a bound peer
address must match the queried peer. -/
def deviceMatches (channel self_address peer_address : Nat) (device : DeviceSpec) : Bool :=
  if device.channel ≠ channel then false
  else if device.self_address ≠ self_address then false
  else
    match device.peer_address with
    | some peer => if peer ≠ peer_address then false else true
    | none => true

/-- `get_cached_device_spec` of `specification.rs`. -/
def get_cached_device_spec (devices : List DeviceSpec)
    (channel self_address peer_address : Nat) : Option DeviceSpec :=
  devices.find? (deviceMatches channel self_address peer_address)

/-- The device construction performed by `get_or_create_cached_device_spec`
of `specification.rs` on a cache miss. -/
def mkDeviceSpec (channel self_address peer_address : Nat) (file : SpecificationFile)
    (language : Lang) : DeviceSpec :=
  let device_template := file.find_device_template self_address peer_address
  let peer_address_option : Option Nat :=
    match device_template with
    | none => none
    | some t => if t.peer_mask = 0 then none else some peer_address
  let device_id :=
    match peer_address_option with
    | none => hexPad 2 channel ++ "_" ++ hexPad 4 self_address
    | some peer => hexPad 2 channel ++ "_" ++ hexPad 4 self_address ++ "_" ++ hexPad 4 peer
  let name :=
    match device_template with
    | none =>
      match language with
      | Lang.En => "Unknown device 0x" ++ hexPad 4 self_address
      | Lang.De => "Unbekanntes Gerät 0x" ++ hexPad 4 self_address
      | Lang.Fr => "Unknown device 0x" ++ hexPad 4 self_address
    | some t => file.localized_text_by_index t.name_localized_text_index language
  let name :=
    match channel with
    | 0 => name
    | _ => "VBus " ++ toString channel ++ ": " ++ name
  { device_id := device_id, channel := channel, self_address := self_address,
    peer_address := peer_address_option, name := name }

/-- `get_or_create_cached_device_spec` of `specification.rs`: return a cache
hit, else create, push and look the new entry up again (the source unwraps
that lookup; `none` here models the unwrap's panic, proved unreachable
below). -/
def get_or_create_cached_device_spec (devices : List DeviceSpec)
    (channel self_address peer_address : Nat) (file : SpecificationFile)
    (language : Lang) : Option DeviceSpec × List DeviceSpec :=
  match get_cached_device_spec devices channel self_address peer_address with
  | some device => (some device, devices)
  | none =>
    let device := mkDeviceSpec channel self_address peer_address file language
    let devices1 := devices ++ [device]
    (get_cached_device_spec devices1 channel self_address peer_address, devices1)

lemma deviceMatches_iff (channel self_address peer_address : Nat) (d : DeviceSpec) :
    deviceMatches channel self_address peer_address d = true ↔
      (d.channel = channel ∧ d.self_address = self_address ∧
        (d.peer_address = none ∨ d.peer_address = some peer_address)) := by
  rw [deviceMatches]
  cases hp : d.peer_address <;> split_ifs <;> simp_all

lemma mkDeviceSpec_peer (channel self_address peer_address : Nat)
    (file : SpecificationFile) (language : Lang) :
    (mkDeviceSpec channel self_address peer_address file language).peer_address =
      (match file.find_device_template self_address peer_address with
        | none => none
        | some t => if t.peer_mask = 0 then none else some peer_address) := rfl

lemma mkDeviceSpec_matches (channel self_address peer_address : Nat)
    (file : SpecificationFile) (language : Lang) :
    deviceMatches channel self_address peer_address
      (mkDeviceSpec channel self_address peer_address file language) = true := by
  rw [deviceMatches_iff]
  refine ⟨rfl, rfl, ?_⟩
  rw [mkDeviceSpec_peer]
  cases hft : file.find_device_template self_address peer_address with
  | none => exact Or.inl rfl
  | some t =>
    show (if t.peer_mask = 0 then none else some peer_address) = none ∨
      (if t.peer_mask = 0 then (none : Option Nat) else some peer_address) = some peer_address
    by_cases hm : t.peer_mask = 0
    · exact Or.inl (if_pos hm)
    · exact Or.inr (if_neg hm)

lemma get_cached_device_spec_append (devices : List DeviceSpec)
    (channel self_address peer_address : Nat) (d : DeviceSpec)
    (hnone : get_cached_device_spec devices channel self_address peer_address = none)
    (hd : deviceMatches channel self_address peer_address d = true) :
    get_cached_device_spec (devices ++ [d]) channel self_address peer_address = some d := by
  rw [get_cached_device_spec] at *
  rw [List.find?_append, hnone, Option.none_or]
  rw [List.find?_cons_of_pos _ hd]

lemma device_getOrCreate_some (devices : List DeviceSpec)
    (channel self_address peer_address : Nat) (file : SpecificationFile)
    (language : Lang) :
    ∃ dev devices1,
      get_or_create_cached_device_spec devices channel self_address peer_address file language
        = (some dev, devices1) := by
  rw [get_or_create_cached_device_spec]
  cases hc : get_cached_device_spec devices channel self_address peer_address with
  | some d => exact ⟨d, devices, rfl⟩
  | none =>
    refine ⟨mkDeviceSpec channel self_address peer_address file language,
      devices ++ [mkDeviceSpec channel self_address peer_address file language], ?_⟩
    show (get_cached_device_spec
        (devices ++ [mkDeviceSpec channel self_address peer_address file language])
        channel self_address peer_address,
      devices ++ [mkDeviceSpec channel self_address peer_address file language]) = _
    rw [get_cached_device_spec_append devices channel self_address peer_address _ hc
      (mkDeviceSpec_matches channel self_address peer_address file language)]

/-- C6: `get_or_create_cached_device_spec` first returns any cached entry
whose channel and self_address match and whose bound peer address is absent
or equal to the queried peer, leaving the cache unchanged; on a miss it
creates, caches and returns a `DeviceSpec` whose `peer_address` is
`some peer` exactly when the blob has a device template for (self, peer)
with nonzero peer mask, whose `device_id` is `CC_SSSS` or `CC_SSSS_PPPP`
accordingly, and whose name is the template's localized text or the
language-specific unknown-device fallback (French reusing the English text),
prefixed with `VBus N: ` exactly when the channel is nonzero. -/
theorem get_device_spec_cache (devices : List DeviceSpec)
    (channel self_address peer_address : Nat) (file : SpecificationFile)
    (language : Lang) :
    (∀ d, get_cached_device_spec devices channel self_address peer_address = some d →
      get_or_create_cached_device_spec devices channel self_address peer_address file language
        = (some d, devices)
      ∧ d.channel = channel ∧ d.self_address = self_address
      ∧ (d.peer_address = none ∨ d.peer_address = some peer_address))
    ∧ (get_cached_device_spec devices channel self_address peer_address = none →
      ∃ dev,
        get_or_create_cached_device_spec devices channel self_address peer_address file language
          = (some dev, devices ++ [dev])
        ∧ dev.channel = channel
        ∧ dev.self_address = self_address
        ∧ dev.peer_address = (match file.find_device_template self_address peer_address with
            | none => none
            | some t => if t.peer_mask = 0 then none else some peer_address)
        ∧ dev.device_id = (match dev.peer_address with
            | none => hexPad 2 channel ++ "_" ++ hexPad 4 self_address
            | some peer =>
                hexPad 2 channel ++ "_" ++ hexPad 4 self_address ++ "_" ++ hexPad 4 peer)
        ∧ dev.name =
            (let base :=
              match file.find_device_template self_address peer_address with
              | none =>
                match language with
                | Lang.En => "Unknown device 0x" ++ hexPad 4 self_address
                | Lang.De => "Unbekanntes Gerät 0x" ++ hexPad 4 self_address
                | Lang.Fr => "Unknown device 0x" ++ hexPad 4 self_address
              | some t => file.localized_text_by_index t.name_localized_text_index language
            if channel = 0 then base else "VBus " ++ toString channel ++ ": " ++ base)) := by
  constructor
  · intro d hd
    have hmatch := List.find?_some hd
    rw [deviceMatches_iff] at hmatch
    refine ⟨?_, hmatch⟩
    rw [get_or_create_cached_device_spec, hd]
  · intro hnone
    refine ⟨mkDeviceSpec channel self_address peer_address file language, ?_, rfl, rfl, rfl, rfl, ?_⟩
    · rw [get_or_create_cached_device_spec, hnone]
      show (get_cached_device_spec
          (devices ++ [mkDeviceSpec channel self_address peer_address file language])
          channel self_address peer_address,
        devices ++ [mkDeviceSpec channel self_address peer_address file language]) = _
      rw [get_cached_device_spec_append devices channel self_address peer_address _ hnone
        (mkDeviceSpec_matches channel self_address peer_address file language)]
    · show (match channel with
        | 0 => _
        | _ => "VBus " ++ toString channel ++ ": " ++ _) = _
      cases channel with
      | zero => rfl
      | succ n =>
        rw [if_neg (Nat.succ_ne_zero n)]
        rfl

/-- A concrete specification-file model: no device or packet templates, empty
texts (shared by witnesses below). -/
def fileEx : SpecificationFile :=
  { find_device_template := fun _ _ => none
  , find_packet_template := fun _ _ _ => none
  , text_by_index := fun _ => ""
  , localized_text_by_index := fun _ _ => ""
  , unit_by_id := fun _ => ⟨0, 0, 0⟩
  , unit_family_by_id := fun _ => ⟨0⟩
  , type_by_id := fun _ => VbusType.Number }

/-- Concrete instantiation of `get_device_spec_cache`: a miss on the empty
cache creates the unknown-device entry for 0x7E11. -/
theorem get_device_spec_cache_witness :
    ∃ dev,
      get_or_create_cached_device_spec [] 0 0x7E11 0x0010 fileEx Lang.En
        = (some dev, [] ++ [dev])
      ∧ dev.channel = 0
      ∧ dev.self_address = 0x7E11
      ∧ dev.peer_address = (match fileEx.find_device_template 0x7E11 0x0010 with
          | none => none
          | some t => if t.peer_mask = 0 then none else some 0x0010)
      ∧ dev.device_id = (match dev.peer_address with
          | none => hexPad 2 0 ++ "_" ++ hexPad 4 0x7E11
          | some peer => hexPad 2 0 ++ "_" ++ hexPad 4 0x7E11 ++ "_" ++ hexPad 4 peer)
      ∧ dev.name =
          (let base :=
            match fileEx.find_device_template 0x7E11 0x0010 with
            | none =>
              match Lang.En with
              | Lang.En => "Unknown device 0x" ++ hexPad 4 0x7E11
              | Lang.De => "Unbekanntes Gerät 0x" ++ hexPad 4 0x7E11
              | Lang.Fr => "Unknown device 0x" ++ hexPad 4 0x7E11
            | some t => fileEx.localized_text_by_index t.name_localized_text_index Lang.En
          if 0 = 0 then base else "VBus " ++ toString 0 ++ ": " ++ base) :=
  (get_device_spec_cache [] 0 0x7E11 0x0010 fileEx Lang.En).2 rfl

/-- The cache-hit predicate of `get_cached_packet_spec` in
`specification.rs`: all four key components must match. -/
def packetMatches (channel destination_address source_address command : Nat)
    (packet : PacketSpec) : Bool :=
  if packet.channel ≠ channel then false
  else if packet.destination_address ≠ destination_address then false
  else if packet.source_address ≠ source_address then false
  else if packet.command ≠ command then false
  else true

/-- `get_cached_packet_spec` of `specification.rs`. -/
def get_cached_packet_spec (packets : List PacketSpec)
    (channel destination_address source_address command : Nat) : Option PacketSpec :=
  packets.find? (packetMatches channel destination_address source_address command)

/-- The field construction performed by `get_or_create_cached_packet_spec`
of `specification.rs` for each template field. -/
def mkPacketFieldSpec (file : SpecificationFile) (language : Lang) (packet_id : String)
    (field : PacketTemplateField) : PacketFieldSpec :=
  let field_id := file.text_by_index field.id_text_index
  let packet_field_id := packet_id ++ "_" ++ field_id
  let field_name := file.localized_text_by_index field.name_localized_text_index language
  let unit := file.unit_by_id field.unit_id
  let unit_family := file.unit_family_by_id unit.unit_family_id
  let unit_code := file.text_by_index unit.unit_code_text_index
  let unit_text := file.text_by_index unit.unit_text_text_index
  let typ := file.type_by_id field.type_id
  { field_id := field_id, packet_field_id := packet_field_id, name := field_name,
    unit_id := field.unit_id, unit_family := unit_family, unit_code := unit_code,
    unit_text := unit_text, precision := field.precision, typ := typ,
    parts := field.parts }

/-- The packet construction performed by `get_or_create_cached_packet_spec`
of `specification.rs` on a cache miss. -/
def mkPacketSpec (channel destination_address source_address command : Nat)
    (destination_device source_device : DeviceSpec) (file : SpecificationFile)
    (language : Lang) : PacketSpec :=
  let packet_id := hexPad 2 channel ++ "_" ++ hexPad 4 destination_address ++ "_" ++
    hexPad 4 source_address ++ "_10_" ++ hexPad 4 command
  let packet_name :=
    if destination_address = 0x0010 then source_device.name
    else source_device.name ++ " => " ++ destination_device.name
  let fields :=
    match file.find_packet_template destination_address source_address command with
    | none => []
    | some packet_template => packet_template.fields.map (mkPacketFieldSpec file language packet_id)
  { packet_id := packet_id, channel := channel,
    destination_address := destination_address, source_address := source_address,
    command := command, destination_device := destination_device,
    source_device := source_device, name := packet_name, fields := fields }

/-- `get_or_create_cached_packet_spec` of `specification.rs`: return a cache
hit, else resolve both devices (destination with peer = source, source with
peer = destination), create the packet spec, push it and look it up again;
`none` models the source's unwrap panics, proved unreachable below. -/
def get_or_create_cached_packet_spec (packets : List PacketSpec)
    (channel destination_address source_address command : Nat)
    (devices : List DeviceSpec) (file : SpecificationFile) (language : Lang) :
    Option PacketSpec × List PacketSpec × List DeviceSpec :=
  match get_cached_packet_spec packets channel destination_address source_address command with
  | some packet => (some packet, packets, devices)
  | none =>
    match get_or_create_cached_device_spec devices channel destination_address source_address
        file language with
    | (none, devices1) => (none, packets, devices1)
    | (some destination_device, devices1) =>
      match get_or_create_cached_device_spec devices1 channel source_address
          destination_address file language with
      | (none, devices2) => (none, packets, devices2)
      | (some source_device, devices2) =>
        let packet := mkPacketSpec channel destination_address source_address command
          destination_device source_device file language
        let packets1 := packets ++ [packet]
        (get_cached_packet_spec packets1 channel destination_address source_address command,
          packets1, devices2)

/-- The `Specification` struct of `specification.rs`: the parsed file, the
chosen language and the two lazily grown caches (the `RefCell` interior
mutability is modelled by explicit state passing). -/
structure Specification where
  file : SpecificationFile
  language : Lang
  devices : List DeviceSpec
  packets : List PacketSpec

/-- `Specification::from_file` of `specification.rs`: empty caches. -/
def Specification.from_file (file : SpecificationFile) (language : Lang) : Specification :=
  { file := file, language := language, devices := [], packets := [] }

/-- `Specification::get_device_spec` of `specification.rs`, returning the
spec with its updated device cache. -/
def Specification.get_device_spec (spec : Specification)
    (channel self_address peer_address : Nat) : Option DeviceSpec × Specification :=
  let r := get_or_create_cached_device_spec spec.devices channel self_address peer_address
    spec.file spec.language
  (r.1, { spec with devices := r.2 })

/-- `Specification::get_packet_spec` of `specification.rs`, returning the
spec with its updated caches. -/
def Specification.get_packet_spec (spec : Specification)
    (channel destination_address source_address command : Nat) :
    Option PacketSpec × Specification :=
  let r := get_or_create_cached_packet_spec spec.packets channel destination_address
    source_address command spec.devices spec.file spec.language
  (r.1, { spec with packets := r.2.1, devices := r.2.2 })

lemma packetMatches_iff (channel destination_address source_address command : Nat)
    (p : PacketSpec) :
    packetMatches channel destination_address source_address command p = true ↔
      (p.channel = channel ∧ p.destination_address = destination_address ∧
        p.source_address = source_address ∧ p.command = command) := by
  rw [packetMatches]
  split_ifs <;> simp_all

lemma get_cached_packet_spec_append (packets : List PacketSpec)
    (channel destination_address source_address command : Nat) (p : PacketSpec)
    (hnone : get_cached_packet_spec packets channel destination_address source_address command
      = none)
    (hp : packetMatches channel destination_address source_address command p = true) :
    get_cached_packet_spec (packets ++ [p]) channel destination_address source_address command
      = some p := by
  rw [get_cached_packet_spec] at *
  rw [List.find?_append, hnone, Option.none_or]
  rw [List.find?_cons_of_pos _ hp]

lemma mkPacketSpec_matches (channel destination_address source_address command : Nat)
    (destination_device source_device : DeviceSpec) (file : SpecificationFile)
    (language : Lang) :
    packetMatches channel destination_address source_address command
      (mkPacketSpec channel destination_address source_address command
        destination_device source_device file language) = true := by
  rw [packetMatches_iff]
  exact ⟨rfl, rfl, rfl, rfl⟩

lemma packet_getOrCreate_some (packets : List PacketSpec)
    (channel destination_address source_address command : Nat)
    (devices : List DeviceSpec) (file : SpecificationFile) (language : Lang) :
    ∃ packet packets1 devices2,
      get_or_create_cached_packet_spec packets channel destination_address source_address
        command devices file language = (some packet, packets1, devices2) := by
  rw [get_or_create_cached_packet_spec]
  cases hc : get_cached_packet_spec packets channel destination_address source_address command with
  | some p => exact ⟨p, packets, devices, rfl⟩
  | none =>
    obtain ⟨dd, devices1, hd1⟩ := device_getOrCreate_some devices channel destination_address
      source_address file language
    rw [hd1]
    dsimp only
    obtain ⟨sd, devices2, hd2⟩ := device_getOrCreate_some devices1 channel source_address
      destination_address file language
    rw [hd2]
    dsimp only
    refine ⟨mkPacketSpec channel destination_address source_address command dd sd file language,
      packets ++ [mkPacketSpec channel destination_address source_address command dd sd
        file language], devices2, ?_⟩
    show (get_cached_packet_spec (packets ++ [mkPacketSpec channel destination_address
        source_address command dd sd file language]) channel destination_address
        source_address command, _, _) = _
    rw [get_cached_packet_spec_append packets channel destination_address source_address
      command _ hc (mkPacketSpec_matches channel destination_address source_address command
        dd sd file language)]

/-- The `DataSetPacketField` item of `specification.rs` (the `data_set`
reference is dropped; the borrowed slice is implicit in the iterator). -/
structure DataSetPacketField where
  data_index : Nat
  packet_spec : PacketSpec
  field_index : Nat
  raw_value : Option ℚ
deriving DecidableEq, Repr

/-- The `DataSetPacketFieldIterator` of `specification.rs`: the
specification, the borrowed `Data` slice and the two cursor indices. -/
structure DataSetPacketFieldIterator where
  spec : Specification
  data_set : List Data
  data_index : Nat
  field_index : Nat

/-- `DataSetPacketFieldIterator::next` of `specification.rs`: skip
non-Packet members, resolve the `PacketSpec` through the cache, yield one
item per field, decoding from `frame_data[0 .. frame_count*4]`; `none` from
the resolver models the source's unwrap panics (proved unreachable). -/
def DataSetPacketFieldIterator.next (it : DataSetPacketFieldIterator) :
    Option (DataSetPacketField × DataSetPacketFieldIterator) :=
  if h : it.data_index < it.data_set.length then
    match it.data_set.get ⟨it.data_index, h⟩ with
    | Data.Packet packet =>
      let r := it.spec.get_packet_spec packet.header.channel packet.header.destination_address
        packet.header.source_address packet.command
      match r.1 with
      | none => none
      | some packet_spec =>
        if hf : it.field_index < packet_spec.fields.length then
          let frame_data := packet.frame_data.take (packet.frame_count * 4)
          let field_spec := packet_spec.fields.get ⟨it.field_index, hf⟩
          some ({ data_index := it.data_index, packet_spec := packet_spec,
                  field_index := it.field_index,
                  raw_value := field_spec.get_raw_value_f64 frame_data },
                { it with spec := r.2, field_index := it.field_index + 1 })
        else
          DataSetPacketFieldIterator.next
            { it with spec := r.2, data_index := it.data_index + 1, field_index := 0 }
    | _ =>
      DataSetPacketFieldIterator.next
        { it with data_index := it.data_index + 1, field_index := 0 }
  else none
termination_by it.data_set.length - it.data_index
decreasing_by all_goals omega

/-- `Specification::fields_in_data_set` of `specification.rs`: the iterator
positioned at the start of the slice. -/
def Specification.fields_in_data_set (spec : Specification) (data_set : List Data) :
    DataSetPacketFieldIterator :=
  { spec := spec, data_set := data_set, data_index := 0, field_index := 0 }

lemma mkPacketSpec_fields (channel destination_address source_address command : Nat)
    (destination_device source_device : DeviceSpec) (file : SpecificationFile)
    (language : Lang) :
    (mkPacketSpec channel destination_address source_address command destination_device
      source_device file language).fields =
      (match file.find_packet_template destination_address source_address command with
        | none => []
        | some packet_template => packet_template.fields.map (mkPacketFieldSpec file language
            (hexPad 2 channel ++ "_" ++ hexPad 4 destination_address ++ "_" ++
              hexPad 4 source_address ++ "_10_" ++ hexPad 4 command))) := rfl

/-- C8: the `DataSetPacketFieldIterator` visits the `Data` slice in order,
silently skipping Datagram and Telegram members; on a Packet it resolves the
`PacketSpec` through the cache (always successfully) and yields one item per
field in spec order, carrying the data index, the resolved `PacketSpec`, the
field index, and the raw value decoded from
`frame_data[0 .. frame_count*4]`; a Packet resolved on a cache miss with no
packet template gets an empty field list and hence yields no items. -/
theorem fields_in_data_set_iteration (spec : Specification) (slice : List Data) (i j : Nat) :
    ((spec.fields_in_data_set slice).spec = spec
      ∧ (spec.fields_in_data_set slice).data_set = slice
      ∧ (spec.fields_in_data_set slice).data_index = 0
      ∧ (spec.fields_in_data_set slice).field_index = 0)
    ∧ (slice.length ≤ i →
        DataSetPacketFieldIterator.next ⟨spec, slice, i, j⟩ = none)
    ∧ (∀ h : i < slice.length,
        (∀ dgram, slice.get ⟨i, h⟩ = Data.Datagram dgram →
          DataSetPacketFieldIterator.next ⟨spec, slice, i, j⟩ =
            DataSetPacketFieldIterator.next ⟨spec, slice, i + 1, 0⟩)
        ∧ (∀ tgram, slice.get ⟨i, h⟩ = Data.Telegram tgram →
          DataSetPacketFieldIterator.next ⟨spec, slice, i, j⟩ =
            DataSetPacketFieldIterator.next ⟨spec, slice, i + 1, 0⟩)
        ∧ (∀ packet, slice.get ⟨i, h⟩ = Data.Packet packet →
          ∀ ps spec2,
            spec.get_packet_spec packet.header.channel packet.header.destination_address
              packet.header.source_address packet.command = (some ps, spec2) →
            (∀ hj : j < ps.fields.length,
              DataSetPacketFieldIterator.next ⟨spec, slice, i, j⟩ =
                some (DataSetPacketField.mk i ps j
                    ((ps.fields.get ⟨j, hj⟩).get_raw_value_f64
                      (packet.frame_data.take (packet.frame_count * 4))),
                  ⟨spec2, slice, i, j + 1⟩))
            ∧ (ps.fields.length ≤ j →
              DataSetPacketFieldIterator.next ⟨spec, slice, i, j⟩ =
                DataSetPacketFieldIterator.next ⟨spec2, slice, i + 1, 0⟩)))
    ∧ (∀ channel destination_address source_address command,
        ((spec.get_packet_spec channel destination_address source_address command).1).isSome
          = true)
    ∧ (∀ channel destination_address source_address command ps spec2,
        get_cached_packet_spec spec.packets channel destination_address source_address command
          = none →
        spec.file.find_packet_template destination_address source_address command = none →
        spec.get_packet_spec channel destination_address source_address command
          = (some ps, spec2) →
        ps.fields = []) := by
  refine ⟨⟨rfl, rfl, rfl, rfl⟩, ?_, ?_, ?_, ?_⟩
  · intro hle
    rw [DataSetPacketFieldIterator.next]
    dsimp only
    rw [dif_neg (by omega)]
  · intro h
    refine ⟨?_, ?_, ?_⟩
    · intro dgram hd
      rw [DataSetPacketFieldIterator.next]
      dsimp only
      rw [dif_pos h, hd]
    · intro tgram hd
      rw [DataSetPacketFieldIterator.next]
      dsimp only
      rw [dif_pos h, hd]
    · intro packet hp ps spec2 hps
      constructor
      · intro hj
        rw [DataSetPacketFieldIterator.next]
        dsimp only
        rw [dif_pos h, hp]
        dsimp only
        rw [hps]
        dsimp only
        rw [dif_pos hj]
      · intro hj
        rw [DataSetPacketFieldIterator.next]
        dsimp only
        rw [dif_pos h, hp]
        dsimp only
        rw [hps]
        dsimp only
        rw [dif_neg (by omega)]
  · intro channel destination_address source_address command
    obtain ⟨p, p1, d2, hr⟩ := packet_getOrCreate_some spec.packets channel destination_address
      source_address command spec.devices spec.file spec.language
    rw [Specification.get_packet_spec]
    dsimp only
    rw [hr]
    rfl
  · intro channel destination_address source_address command ps spec2 hc hft hres
    rw [Specification.get_packet_spec] at hres
    rw [get_or_create_cached_packet_spec, hc] at hres
    obtain ⟨dd, devices1, hd1⟩ := device_getOrCreate_some spec.devices channel
      destination_address source_address spec.file spec.language
    rw [hd1] at hres
    dsimp only at hres
    obtain ⟨sd, devices2, hd2⟩ := device_getOrCreate_some devices1 channel source_address
      destination_address spec.file spec.language
    rw [hd2] at hres
    dsimp only at hres
    rw [get_cached_packet_spec_append spec.packets channel destination_address source_address
      command _ hc (mkPacketSpec_matches channel destination_address source_address command
        dd sd spec.file spec.language)] at hres
    have hps : ps = mkPacketSpec channel destination_address source_address command dd sd
        spec.file spec.language := by
      have := congrArg Prod.fst hres
      dsimp only at this
      exact (Option.some.inj this).symm
    rw [hps, mkPacketSpec_fields, hft]

/-- Concrete instantiation of `fields_in_data_set_iteration`: the iterator
silently skips a Datagram member. -/
theorem fields_in_data_set_iteration_witness :
    DataSetPacketFieldIterator.next ⟨Specification.from_file fileEx Lang.En, [dgmEx], 0, 0⟩ =
      DataSetPacketFieldIterator.next ⟨Specification.from_file fileEx Lang.En, [dgmEx], 1, 0⟩ :=
  (((fields_in_data_set_iteration (Specification.from_file fileEx Lang.En) [dgmEx] 0 0).2.2.1
      (by decide)).1 ⟨⟨7, 0x11, 0x0, 0x7E11, 0x20⟩, 0x0900, 5, 7⟩ rfl)
